import Mathlib

/-
Verification of the Hex color-validation core: a shallow embedding of
src/Validator.js and src/VSCodeSchema.js (the schema resolver and the
validator) together with theorems settling the specification claims.

JavaScript values are modelled by the inductive type `JVal`; JavaScript
exceptions are modelled by `Except String`; the JavaScript regular-expression
facility (`new RegExp(p)` / `re.test(s)`) is modelled by an abstract parameter
`compile : String → Option (String → Bool)`, where `compile p = none` models
`new RegExp(p)` throwing on a malformed pattern and `compile p = some t`
models a successfully compiled regex whose `test` method is `t`.
-/

namespace Hex

/-- A JavaScript/JSON value as produced by the JSON5 parse of the schema
document or supplied by a caller of the validator. -/
inductive JVal where
  | str (s : String)
  | num (n : Int)
  | bool (b : Bool)
  | null
  | arr (xs : List JVal)
  | obj (fs : List (String × JVal))
deriving Repr

mutual

/-- Structural equality test for `JVal` (`DecidableEq` cannot be derived for
this nested inductive, so it is built from a Boolean test). -/
def JVal.beq : JVal → JVal → Bool
  | .str a, .str b => a == b
  | .num a, .num b => a == b
  | .bool a, .bool b => a == b
  | .null, .null => true
  | .arr as, .arr bs => JVal.beqArr as bs
  | .obj fs, .obj gs => JVal.beqObj fs gs
  | _, _ => false

/-- Equality test for lists of `JVal`. -/
def JVal.beqArr : List JVal → List JVal → Bool
  | [], [] => true
  | a :: as, b :: bs => JVal.beq a b && JVal.beqArr as bs
  | _, _ => false

/-- Equality test for field lists. -/
def JVal.beqObj : List (String × JVal) → List (String × JVal) → Bool
  | [], [] => true
  | (k, a) :: fs, (k', b) :: gs => k == k' && JVal.beq a b && JVal.beqObj fs gs
  | _, _ => false

end

mutual

theorem JVal.beq_iff : ∀ a b : JVal, JVal.beq a b = true ↔ a = b
  | .str a, b => by cases b <;> simp [JVal.beq]
  | .num a, b => by cases b <;> simp [JVal.beq]
  | .bool a, b => by cases b <;> simp [JVal.beq]
  | .null, b => by cases b <;> simp [JVal.beq]
  | .arr as, b => by
      cases b with
      | arr bs => simpa [JVal.beq] using JVal.beqArr_iff as bs
      | str s => simp [JVal.beq]
      | num n => simp [JVal.beq]
      | bool x => simp [JVal.beq]
      | null => simp [JVal.beq]
      | obj gs => simp [JVal.beq]
  | .obj fs, b => by
      cases b with
      | obj gs => simpa [JVal.beq] using JVal.beqObj_iff fs gs
      | str s => simp [JVal.beq]
      | num n => simp [JVal.beq]
      | bool x => simp [JVal.beq]
      | null => simp [JVal.beq]
      | arr bs => simp [JVal.beq]

theorem JVal.beqArr_iff : ∀ as bs : List JVal, JVal.beqArr as bs = true ↔ as = bs
  | [], [] => by simp [JVal.beqArr]
  | [], _ :: _ => by simp [JVal.beqArr]
  | _ :: _, [] => by simp [JVal.beqArr]
  | a :: as, b :: bs => by
      simp [JVal.beqArr, JVal.beq_iff a b, JVal.beqArr_iff as bs]

theorem JVal.beqObj_iff :
    ∀ fs gs : List (String × JVal), JVal.beqObj fs gs = true ↔ fs = gs
  | [], [] => by simp [JVal.beqObj]
  | [], _ :: _ => by simp [JVal.beqObj]
  | _ :: _, [] => by simp [JVal.beqObj]
  | (k, a) :: fs, (k', b) :: gs => by
      simp [JVal.beqObj, JVal.beq_iff a b, JVal.beqObj_iff fs gs,
        beq_iff_eq, and_assoc]

end

instance : DecidableEq JVal := fun a b => decidable_of_iff _ (JVal.beq_iff a b)

instance {ε α : Type} [DecidableEq ε] [DecidableEq α] :
    DecidableEq (Except ε α) := fun
  | .ok a, .ok b => decidable_of_iff (a = b) (by simp)
  | .error e, .error f => decidable_of_iff (e = f) (by simp)
  | .ok _, .error _ => isFalse (fun h => Except.noConfusion h)
  | .error _, .ok _ => isFalse (fun h => Except.noConfusion h)

/-- JavaScript truthiness of a value: `""`, `0`, `false` and `null` are falsy,
every other value (including `[]` and `{}`) is truthy. -/
def truthyV : JVal → Bool
  | .str s => !s.isEmpty
  | .num n => n != 0
  | .bool b => b
  | .null => false
  | .arr _ => true
  | .obj _ => true

/-- Truthiness of a possibly-absent value (`none` models `undefined`). -/
def truthy : Option JVal → Bool
  | none => false
  | some v => truthyV v

/-- First-match lookup in an association list (JavaScript object field read /
`Map.get`). -/
def aGet (fs : List (String × JVal)) (k : String) : Option JVal :=
  match fs with
  | [] => none
  | (k', v) :: rest => if k' = k then some v else aGet rest k

/-- JavaScript object field write / `Map.set`: update the binding in place when
the key exists (keeping its position), otherwise append it. -/
def aSet (fs : List (String × JVal)) (k : String) (v : JVal) :
    List (String × JVal) :=
  match fs with
  | [] => [(k, v)]
  | (k', v') :: rest =>
      if k' = k then (k', v) :: rest else (k', v') :: aSet rest k v

/-- `delete obj[k]`: remove the first binding of `k`. -/
def aDelete (fs : List (String × JVal)) (k : String) :
    List (String × JVal) :=
  match fs with
  | [] => []
  | (k', v') :: rest =>
      if k' = k then rest else (k', v') :: aDelete rest k

/-- Total field access: an own property read that is known not to be performed
on `null` (reads on other primitives yield `undefined`, i.e. `none`). -/
def getF (v : JVal) (k : String) : Option JVal :=
  match v with
  | .obj fs => aGet fs k
  | _ => none

/-- Field access as performed by the source (`v.k`): reading a property of
`null` throws a `TypeError`; reading a property of any other primitive yields
`undefined` (`none`). -/
def prop (v : JVal) (k : String) : Except String (Option JVal) :=
  match v with
  | .null => .error ("Cannot read properties of null (reading '" ++ k ++ "')")
  | .obj fs => .ok (aGet fs k)
  | _ => .ok none

/-- `Object.prototype.hasOwnProperty.call(v, k)`. -/
def hasField (v : JVal) (k : String) : Bool :=
  match v with
  | .obj fs => (aGet fs k).isSome
  | _ => false

/-- `v[k] = x` on an object (the source only assigns onto objects; stages that
could assign onto a primitive are treated where they occur). -/
def setField (v : JVal) (k : String) (x : JVal) : JVal :=
  match v with
  | .obj fs => .obj (aSet fs k x)
  | _ => v

/-- `delete v[k]` (a no-op on primitives; the source only deletes a field it
has just read as truthy, so the receiver is an object there). -/
def deleteField (v : JVal) (k : String) : JVal :=
  match v with
  | .obj fs => .obj (aDelete fs k)
  | _ => v

/-- The own enumerable entries of a value as read by `Object.assign` from a
source operand: objects contribute their fields, strings their indexed
characters, arrays their indexed elements; numbers, booleans and `null`
contribute nothing. -/
def assignSrc : JVal → List (String × JVal)
  | .obj fs => fs
  | .str s => (List.range s.length).zip (s.data.map fun c => JVal.str (String.mk [c]))
              |>.map fun p => (toString p.1, p.2)
  | .arr xs => (List.range xs.length).zip xs |>.map fun p => (toString p.1, p.2)
  | _ => []

/-- `Object.assign(target, source)` for an object target: copy each own
enumerable field of `source` onto `target` in order. -/
def objAssign (target : JVal) (source : JVal) : JVal :=
  match target with
  | .obj fs => .obj ((assignSrc source).foldl (fun acc kv => aSet acc kv.1 kv.2) fs)
  | _ => target

/-- `Object.entries(v)`: throws on `null`/`undefined`; yields fields of an
object (insertion order; the schema documents carry no integer-like keys),
indexed characters of a string, indexed elements of an array, and nothing for
numbers and booleans. -/
def jsEntries : JVal → Except String (List (String × JVal))
  | .obj fs => .ok fs
  | .null => .error "Cannot convert undefined or null to object"
  | .str s => .ok (((List.range s.length).zip (s.data.map fun c => JVal.str (String.mk [c])))
                  |>.map fun p => (toString p.1, p.2))
  | .arr xs => .ok (((List.range xs.length).zip xs).map fun p => (toString p.1, p.2))
  | .num _ => .ok []
  | .bool _ => .ok []

/-- String coercion as applied by `new RegExp(p)` and template literals to a
non-string operand. Arrays stringify by joining their elements; that case (and
the `[object Object]` case) is never exercised, since every pattern and
reference in the schema documents is a string, so array joining is
approximated by the empty string. -/
def jsStr : JVal → String
  | .str s => s
  | .num n => toString n
  | .bool b => if b then "true" else "false"
  | .null => "null"
  | .arr _ => ""
  | .obj _ => "[object Object]"

/-- JSON escaping of one character for `JSON.stringify` of a string. -/
def jsonEscapeChar (c : Char) : String :=
  if c = '"' then "\\\""
  else if c = '\\' then "\\\\"
  else if c = '\n' then "\\n"
  else if c = '\r' then "\\r"
  else if c = '\t' then "\\t"
  else String.mk [c]

/-- `JSON.stringify(v)` as used in the resolver's error message. Only the
string case is ever exercised (references are strings); containers are
approximated. -/
def jsonStr : JVal → String
  | .str s => "\"" ++ String.join (s.data.map jsonEscapeChar) ++ "\""
  | .num n => toString n
  | .bool b => if b then "true" else "false"
  | .null => "null"
  | .arr _ => "[]"
  | .obj _ => "\x7b\x7d"

/-- The `??` operator: keep the left operand unless it is `null`/`undefined`. -/
def jsNullish (o : Option JVal) (d : JVal) : JVal :=
  match o with
  | some .null => d
  | some v => v
  | none => d

/-- The `||` operator specialised to a field read with a default: keep the
field's value when truthy, otherwise the default. -/
def jsOr (o : Option JVal) (d : JVal) : JVal :=
  match o with
  | some v => if truthyV v then v else d
  | none => d

/-! ## Validator (src/Validator.js)

`Validator.validate(schema, userColors)` and the private
`Validator.#validateColorProperty(_key, value, propertySchema)`.
The user color mapping is represented by its `Object.entries` list (the
caller-facing contract requires `userColors` to be iterable as key/value
pairs); the schema `Map` is represented by its association list. -/

/-- Hex-digit test, the character class `[a-fA-F0-9]` of `Validator.#colourHex`. -/
def isHexDigit (c : Char) : Bool :=
  ('a' ≤ c && c ≤ 'f') || ('A' ≤ c && c ≤ 'F') || ('0' ≤ c && c ≤ '9')

/-- `Validator.#colourHex.test(s)`: the anchored pattern
`#(?:[a-fA-F0-9]\x7b6\x7d(?:[a-fA-F0-9]\x7b2\x7d)?|[a-fA-F0-9]\x7b3\x7d(?:[a-fA-F0-9]\x7b1\x7d)?)`
accepts `#` followed by hex digits of length 6, 8, 3 or 4. -/
def colourHexTest (s : String) : Bool :=
  match s.data with
  | '#' :: rest =>
      rest.all isHexDigit &&
        (rest.length == 6 || rest.length == 8 ||
         rest.length == 3 || rest.length == 4)
  | _ => false

/-- The internal result of `#validateColorProperty`
(`{isValid, error?}`). -/
structure PropVR where
  isValid : Bool
  error : Option JVal
deriving DecidableEq, Repr

/-- The generic transparency message (the right operand of `??` in the
source; unreachable there because the loop guard already requires a truthy
`patternErrorMessage`). -/
def genericTransparencyMsg : String :=
  "This color must be transparent to avoid obscuring content."

/-- The `for(const option of propertySchema.oneOf)` loop of
`#validateColorProperty` (source lines 139-154): for each alternative whose
`pattern` and `patternErrorMessage` are both truthy, compile the pattern
(`new RegExp` throws on a malformed one) and test the value, returning the
alternative's message on the first failure. Reading `option.pattern` on a
`null` alternative throws. -/
def validateOptions (compile : String → Option (String → Bool)) (s : String) :
    List JVal → Except String PropVR
  | [] => .ok ⟨true, none⟩
  | opt :: rest => do
      let pat ← prop opt "pattern"
      let pem ← prop opt "patternErrorMessage"
      if truthy pat && truthy pem then
        let pstr := jsStr (pat.getD .null)
        match compile pstr with
        | none => .error ("Invalid regular expression: " ++ pstr)
        | some test =>
            if test s then validateOptions compile s rest
            else .ok ⟨false, some (jsNullish pem (.str genericTransparencyMsg))⟩
      else validateOptions compile s rest

/-- The transparency stage of `#validateColorProperty` (source lines
138-155): run the pattern loop when `propertySchema && propertySchema.oneOf`
is truthy. A truthy non-array `oneOf` is not iterable and throws in
`for..of`, except that a string iterates over its characters, all of which
lack a `pattern` field and are skipped. -/
def transparencyStage (compile : String → Option (String → Bool)) (s : String)
    (ps : JVal) : Except String PropVR :=
  if truthyV ps then
    match getF ps "oneOf" with
    | some (.arr opts) => validateOptions compile s opts
    | some (.str _) => .ok ⟨true, none⟩
    | some v => if truthyV v then .error "propertySchema.oneOf is not iterable"
                else .ok ⟨true, none⟩
    | none => .ok ⟨true, none⟩
  else .ok ⟨true, none⟩

/-- `Validator.#validateColorProperty` (source lines 121-158): type check,
then literal/format check, then the transparency stage. -/
def validateColorProperty (compile : String → Option (String → Bool))
    (value : JVal) (ps : JVal) : Except String PropVR :=
  match value with
  | .str s =>
      if !(s == "default" || colourHexTest s) then
        .ok ⟨false, some (.str "Invalid color format. Use #RGB, #RGBA, #RRGGBB or #RRGGBBAA.")⟩
      else transparencyStage compile s ps
  | _ => .ok ⟨false, some (.str "Color values must be strings")⟩

/-- One entry of the list returned by `Validator.validate`. `message = none`
models the `undefined` message of a valid entry. -/
structure VResult where
  property : String
  status : String
  description : JVal
  value : JVal
  message : Option JVal
deriving DecidableEq, Repr

/-- The body of the `for(const [key, value] of Object.entries(userColors))`
loop of `Validator.validate` (source lines 64-94), producing the entry pushed
for one `(key, value)` pair. -/
def entryFor (compile : String → Option (String → Bool))
    (schema : List (String × JVal)) (k : String) (v : JVal) :
    Except String VResult :=
  match aGet schema k with
  | some ps => do
      let vr ← validateColorProperty compile v ps
      let dep ← prop ps "deprecationMessage"
      let isDep := truthy dep
      let desc ← prop ps "description"
      .ok { property := k
            status := if isDep then "warn"
                      else if vr.isValid then "valid" else "invalid"
            description := jsOr desc (.str "No description available")
            value := v
            message := if isDep then dep
                       else if vr.isValid then none else vr.error }
  | none =>
      .ok { property := k
            status := "invalid"
            description := .str ""
            value := v
            message := some (.str ("Property " ++ k ++ " is not allowed.")) }

/-- `Validator.validate` (source lines 60-101): one result entry per user
color entry, in iteration order; the `try/catch` re-throws, so exceptions
propagate unchanged. -/
def validate (compile : String → Option (String → Bool))
    (schema : List (String × JVal)) :
    List (String × JVal) → Except String (List VResult)
  | [] => .ok []
  | (k, v) :: rest => do
      let e ← entryFor compile schema k v
      let es ← validate compile schema rest
      .ok (e :: es)

/-! ## Schema resolver (src/VSCodeSchema.js, `#resolveSchema`)

The instance method `#resolveSchema(loaded)` walks `loaded.properties`,
resolves `$ref` pointers against `loaded.$defs`, flattens `oneOf`, derives
`alphaRequired` and a default `sample`, and stores each (in-place mutated)
node in the output `Map` under its original key.

In-place mutation is modelled by explicit state passing: each stage maps the
current value of a node to its next value, and the resolver returns both the
output map and the final list of `properties` entries (the mutated document).
On an exception the `error` value carries the entries as mutated up to the
point of the throw, since the thrown constructor leaves the document in that
state. The write-only `#defs` reference cache is threaded as explicit state
as well. -/

/-- The `#defs` cache: category name to (definition name to value). -/
abbrev Cache := List (String × List (String × JVal))

/-- A word character, `\w` of the reference pattern. -/
def isWordChar (c : Char) : Bool :=
  ('a' ≤ c && c ≤ 'z') || ('A' ≤ c && c ≤ 'Z') || ('0' ≤ c && c ≤ '9') || c = '_'

/-- A character that `.` (without the `s` flag) refuses to match: the
JavaScript line terminators. -/
def isLineTerminator (c : Char) : Bool :=
  c = '\n' || c = '\r' || c = '\u2028' || c = '\u2029'

/-- Matching `refPattern = /^#\/\$(?<cat>\w+)\/(?<def>.*)$/` against a list of
characters: `#/$`, then a maximal non-empty run of word characters, then `/`,
then any line-terminator-free remainder (possibly empty). -/
def parseRefL : List Char → Option (String × String)
  | '#' :: '/' :: '$' :: rest =>
      match rest.takeWhile isWordChar, rest.dropWhile isWordChar with
      | [], _ => none
      | cat, '/' :: defPart =>
          if defPart.all (fun c => !isLineTerminator c) then
            some (String.mk cat, String.mk defPart)
          else none
      | _, _ => none
  | _ => none

/-- `refPattern.exec(ref)?.groups`: the `(cat, def)` capture groups, or `none`
when the reference does not match. -/
def parseRef (s : String) : Option (String × String) :=
  parseRefL s.data

/-- `defs[name]`: member access on the `$defs` value. Throws when `$defs` is
absent (`undefined`) or `null`; looks a field up on an object; indexes an
array or a string by a canonical numeric key; yields `undefined` on the other
primitives. -/
def defsIndex (defs : Option JVal) (name : String) :
    Except String (Option JVal) :=
  match defs with
  | none => .error ("Cannot read properties of undefined (reading '" ++ name ++ "')")
  | some .null => .error ("Cannot read properties of null (reading '" ++ name ++ "')")
  | some (.obj fs) => .ok (aGet fs name)
  | some (.arr xs) =>
      .ok (match name.toNat? with
           | some i => xs.get? i
           | none => none)
  | some (.str s) =>
      .ok (match name.toNat? with
           | some i => (s.data.get? i).map fun c => .str (String.mk [c])
           | none => none)
  | some _ => .ok none

/-- `resolveReference(ref, defs)` (source lines 129-143): parse the reference
against `refPattern`, fail unless both captured segments are truthy, fail
unless `defs[def]` is truthy, and return the category, definition name and
`defs[def]`. The category plays no part in the lookup. -/
def resolveReference (r : JVal) (defs : Option JVal) :
    Except String (String × String × JVal) := do
  let (cat, defName) ←
    match parseRef (jsStr r) with
    | some (c, d) =>
        if c.isEmpty || d.isEmpty then
          Except.error ("Invalid reference/definition pair for " ++ jsonStr r ++ ".")
        else Except.ok (c, d)
    | none =>
        Except.error ("Invalid reference/definition pair for " ++ jsonStr r ++ ".")
  let value ← defsIndex defs defName
  if !truthy value then .error ("No definition for " ++ jsStr r)
  else .ok (cat, defName, value.getD .null)

/-- `recordDefinition({cat, def, value})` (source lines 153-159): create the
category map on first use and record the value unless a truthy entry is
already present (write-once). -/
def recordDefinition (cache : Cache) (cat defName : String) (value : JVal) :
    Cache :=
  match cache.find? (fun p => p.1 = cat) with
  | none =>
      cache ++ [(cat, [(defName, value)])]
  | some (_, m) =>
      if truthy (aGet m defName) then cache
      else cache.map fun p => if p.1 = cat then (p.1, aSet m defName value) else p

/-- The `$ref` step on a property node (source lines 47-57): when `v.$ref` is
truthy, delete it, resolve the reference (the deletion precedes the possible
throw), record the definition, and `Object.assign` the definition's fields
onto the node. An error carries the node's state at the throw. -/
def refStage (defs : Option JVal) (v : JVal) (cache : Cache) :
    Except (String × JVal) (JVal × Cache) :=
  match prop v "$ref" with
  | .error e => .error (e, v)
  | .ok ro =>
      if truthy ro then
        let v1 := deleteField v "$ref"
        match resolveReference (ro.getD .null) defs with
        | .error e => .error (e, v1)
        | .ok (cat, defName, value) =>
            .ok (objAssign v1 value, recordDefinition cache cat defName value)
      else .ok (v, cache)

/-- The `oneOf.forEach` body applied along the list (source lines 62-73):
resolve a truthy `$ref` on each element in place. An error carries the list
with every element updated up to the throw. -/
def resolveEls (defs : Option JVal) (cache : Cache) :
    List JVal → Except (String × List JVal) (List JVal × Cache)
  | [] => .ok ([], cache)
  | el :: rest =>
      match prop el "$ref" with
      | .error e => .error (e, el :: rest)
      | .ok ro =>
          if truthy ro then
            let el1 := deleteField el "$ref"
            match resolveReference (ro.getD .null) defs with
            | .error e => .error (e, el1 :: rest)
            | .ok (cat, defName, value) =>
                let el2 := objAssign el1 value
                match resolveEls defs (recordDefinition cache cat defName value) rest with
                | .error (e, rest') => .error (e, el2 :: rest')
                | .ok (rest', cache') => .ok (el2 :: rest', cache')
          else
            match resolveEls defs cache rest with
            | .error (e, rest') => .error (e, el :: rest')
            | .ok (rest', cache') => .ok (el :: rest', cache')

/-- The deprecation scan (source lines 77-82): the first element whose
`deprecationMessage` is truthy supplies the node's message; reading the field
on a `null` element throws. -/
def depScan : List JVal → Except String (Option JVal)
  | [] => .ok none
  | el :: rest => do
      let dm ← prop el "deprecationMessage"
      if truthy dm then .ok (some (dm.getD .null)) else depScan rest

/-- The `oneOf` step on a property node (source lines 59-83): when `v.oneOf`
is truthy it must be an array (anything else has no `forEach` and throws);
resolve `$ref`s inside the elements, write the array back, and adopt the
first truthy `deprecationMessage`. -/
def oneOfStage (defs : Option JVal) (v : JVal) (cache : Cache) :
    Except (String × JVal) (JVal × Cache) :=
  match prop v "oneOf" with
  | .error e => .error (e, v)
  | .ok oo =>
      if truthy oo then
        match oo.getD .null with
        | .arr els =>
            match resolveEls defs cache els with
            | .error (e, els') => .error (e, setField v "oneOf" (.arr els'))
            | .ok (els', cache') =>
                let v1 := setField v "oneOf" (.arr els')
                match depScan els' with
                | .error e => .error (e, v1)
                | .ok none => .ok (v1, cache')
                | .ok (some dm) =>
                    .ok (setField v1 "deprecationMessage" dm, cache')
        | _ => .error ("oneOf.forEach is not a function", v)
      else .ok (v, cache)

/-- The probe-pattern loop of the transparency derivation (source lines
91-106): each truthy alternative with a truthy `pattern` whose compilation
succeeds is tested against the two canonical probes; malformed patterns are
skipped. Returns `(allows6, allows8)`. -/
def alphaScan (compile : String → Option (String → Bool)) (opts : List JVal) :
    Bool × Bool :=
  opts.foldl
    (fun acc opt =>
      if !truthyV opt then acc
      else match getF opt "pattern" with
        | some p =>
            if truthyV p then
              match compile (jsStr p) with
              | none => acc
              | some test => (acc.1 || test "#ffffff", acc.2 || test "#ffffffaa")
            else acc
        | none => acc)
    (false, false)

/-- The transparency derivation and sample default (source lines 85-115):
scan an array-valued `oneOf`, set `alphaRequired = allows8 && !allows6`, and
set a default `sample` unless the node already has one. On a primitive node
the strict-mode field assignment throws and the surrounding `catch` swallows
it, leaving the node unchanged. -/
def alphaStage (compile : String → Option (String → Bool)) (v : JVal) : JVal :=
  match v with
  | .obj _ =>
      let a : Bool × Bool :=
        match getF v "oneOf" with
        | some (.arr opts) => alphaScan compile opts
        | _ => (false, false)
      let ar : Bool := a.2 && !a.1
      let v1 := setField v "alphaRequired" (.bool ar)
      if hasField v1 "sample" then v1
      else setField v1 "sample" (.str (if ar then "#ffffffaa" else "#ffffff"))
  | _ => v

/-- One iteration of the `for(const [k,v] of Object.entries(properties))`
loop (source lines 44-117): the `$ref` step, the `oneOf` step, then the
transparency derivation. -/
def resolveNode (compile : String → Option (String → Bool))
    (defs : Option JVal) (v : JVal) (cache : Cache) :
    Except (String × JVal) (JVal × Cache) :=
  match refStage defs v cache with
  | .error e => .error e
  | .ok (v1, c1) =>
      match oneOfStage defs v1 c1 with
      | .error e => .error e
      | .ok (v2, c2) => .ok (alphaStage compile v2, c2)

/-- The resolver loop over the `properties` entries. Returns the transformed
entries (the mutated document order is preserved; each node is replaced by
its final value); an error carries the entries as mutated up to the throw. -/
def resolveEntries (compile : String → Option (String → Bool))
    (defs : Option JVal) :
    List (String × JVal) → Cache →
    Except (String × List (String × JVal)) (List (String × JVal) × Cache)
  | [], cache => .ok ([], cache)
  | (k, v) :: rest, cache =>
      match resolveNode compile defs v cache with
      | .error (e, v') => .error (e, (k, v') :: rest)
      | .ok (v', cache') =>
          match resolveEntries compile defs rest cache' with
          | .error (e, rest') => .error (e, (k, v') :: rest')
          | .ok (rest', cache'') => .ok ((k, v') :: rest', cache'')

/-- `schema.set(k, work)` accumulated over the transformed entries: the
output `Map` as an association list. -/
def schemaMapOf (entries : List (String × JVal)) : List (String × JVal) :=
  entries.foldl (fun m kv => aSet m kv.1 kv.2) []

/-- `#resolveSchema(loaded)` (source lines 39-121): destructure `properties`
and `$defs`, iterate the property entries, and return the output map. The
second component of the result is the final list of `properties` entries (the
in-place mutated document); on an exception the error likewise carries the
entries as mutated up to the throw. -/
def resolveSchema (compile : String → Option (String → Bool)) (loaded : JVal) :
    Except (String × List (String × JVal))
           (List (String × JVal) × List (String × JVal)) :=
  match prop loaded "properties" with
  | .error e => .error (e, [])
  | .ok po =>
      let defs : Option JVal := getF loaded "$defs"
      match jsEntries (po.getD .null) with
      | .error e => .error (e, [])
      | .ok entries =>
          match resolveEntries compile defs entries [] with
          | .error (e, props') => .error (e, props')
          | .ok (entries', _) => .ok (schemaMapOf entries', entries')

/-! ## A concrete regular-expression engine

A particular value for the `compile` parameter, covering the concrete
patterns used in the examples below and modelling the behaviour of
JavaScript `new RegExp` / `test` on exactly those patterns: `"("` is
malformed (unterminated group), the empty pattern compiles to a regex that
matches every string, and the anchored eight-hex-digit pattern matches
`#RRGGBBAA`-shaped strings. All other patterns are treated as malformed;
theorems about the program quantify over every engine, and this one is used
only to instantiate witnesses and counterexamples. -/

/-- `test` of `new RegExp("^#[0-9a-fA-F]\x7b8\x7d$")`. -/
def test8Hex (s : String) : Bool :=
  match s.data with
  | '#' :: rest => rest.length == 8 && rest.all isHexDigit
  | _ => false

/-- The concrete engine. -/
def egCompile : String → Option (String → Bool) := fun p =>
  if p = "(" then none
  else if p = "" then some (fun _ => true)
  else if p = "^#[0-9a-fA-F]{8}$" then some test8Hex
  else none

/-! ## Supporting lemmas -/

@[simp] theorem except_bind_ok {ε α β : Type} (a : α) (f : α → Except ε β) :
    (Except.ok a : Except ε α) >>= f = f a := rfl

@[simp] theorem except_bind_error {ε α β : Type} (e : ε) (f : α → Except ε β) :
    (Except.error e : Except ε α) >>= f = Except.error e := rfl

/-- `v.k` coincides with the total field read whenever the receiver is not
`null`. -/
theorem prop_eq_ok_getF (v : JVal) (k : String) (h : v ≠ .null) :
    prop v k = .ok (getF v k) := by
  cases v <;> simp [prop, getF] at h ⊢

/-- A successful association-list lookup locates a member pair. -/
theorem aGet_mem : ∀ (fs : List (String × JVal)) (k : String) (v : JVal),
    aGet fs k = some v → (k, v) ∈ fs := by
  intro fs k v h
  induction fs with
  | nil => simp [aGet] at h
  | cons kv rest ih =>
      obtain ⟨k', v'⟩ := kv
      by_cases hk : k' = k
      · subst hk
        simp [aGet] at h
        simp [h]
      · simp [aGet, hk] at h
        exact List.mem_cons_of_mem _ (ih h)

/-- The `??` operator keeps a truthy left operand. -/
theorem jsNullish_of_truthy (v d : JVal) (h : truthyV v = true) :
    jsNullish (some v) d = v := by
  cases v <;> simp_all [jsNullish, truthyV]

/-- Decomposition of one step of `validate`. -/
theorem validate_cons {compile schema k v rest rs}
    (h : validate compile schema ((k, v) :: rest) = .ok rs) :
    ∃ e es, entryFor compile schema k v = .ok e ∧
      validate compile schema rest = .ok es ∧ rs = e :: es := by
  cases he : entryFor compile schema k v with
  | error e => simp [validate, he, Except.bind] at h
  | ok e =>
      cases hes : validate compile schema rest with
      | error e' => simp [validate, he, hes, Except.bind] at h
      | ok es =>
          refine ⟨e, es, rfl, rfl, ?_⟩
          simp [validate, he, hes, Except.bind] at h
          exact h.symm

/-- Positional description of a successful `validate` run: the result has one
entry per input entry, and the i-th output entry is produced by the loop body
on the i-th input entry. -/
theorem validate_get {compile schema} :
    ∀ (colors : List (String × JVal)) (rs : List VResult),
      validate compile schema colors = .ok rs →
      rs.length = colors.length ∧
      ∀ (i : Nat) (hc : i < colors.length) (hr : i < rs.length),
        entryFor compile schema (colors.get ⟨i, hc⟩).1 (colors.get ⟨i, hc⟩).2 =
          .ok (rs.get ⟨i, hr⟩) := by
  intro colors
  induction colors with
  | nil =>
      intro rs h
      simp [validate] at h
      subst h
      exact ⟨rfl, fun i hc hr => absurd hc (by simp)⟩
  | cons kv rest ih =>
      intro rs h
      obtain ⟨k, v⟩ := kv
      obtain ⟨e, es, he, hes, hrs⟩ := validate_cons h
      subst hrs
      obtain ⟨hlen, hget⟩ := ih es hes
      refine ⟨by simp [hlen], ?_⟩
      intro i hc hr
      cases i with
      | zero => simpa using he
      | succ j =>
          have hc' : j < rest.length := by simpa using hc
          have hr' : j < es.length := by simpa using hr
          simpa using hget j hc' hr'

/-- The loop body on an unknown key. -/
theorem entryFor_unknown {compile schema k v} (h : aGet schema k = none) :
    entryFor compile schema k v =
      .ok { property := k, status := "invalid", description := .str "",
            value := v,
            message := some (.str ("Property " ++ k ++ " is not allowed.")) } := by
  simp [entryFor, h]

/-- The loop body on a known key: the produced entry, in terms of the check's
result and the descriptor's fields. -/
theorem entryFor_known {compile schema k v ps e}
    (hps : aGet schema k = some ps)
    (h : entryFor compile schema k v = .ok e) :
    ∃ vr, validateColorProperty compile v ps = .ok vr ∧ ps ≠ .null ∧
      e = { property := k
            status := if truthy (getF ps "deprecationMessage") then "warn"
                      else if vr.isValid then "valid" else "invalid"
            description := jsOr (getF ps "description")
                                (.str "No description available")
            value := v
            message := if truthy (getF ps "deprecationMessage") then
                         getF ps "deprecationMessage"
                       else if vr.isValid then none else vr.error } := by
  cases hvr : validateColorProperty compile v ps with
  | error err => simp [entryFor, hps, hvr, Except.bind] at h
  | ok vr =>
      by_cases hnull : ps = .null
      · subst hnull
        simp [entryFor, hps, hvr, prop, Except.bind] at h
      · refine ⟨vr, rfl, hnull, ?_⟩
        simp [entryFor, hps, hvr, prop_eq_ok_getF ps _ hnull, Except.bind] at h
        exact h.symm

/-- Every entry of a successful `validate` run carries the input key and the
unmodified input value. -/
theorem entryFor_property_value {compile schema k v e}
    (h : entryFor compile schema k v = .ok e) :
    e.property = k ∧ e.value = v := by
  cases hps : aGet schema k with
  | none =>
      rw [entryFor_unknown hps] at h
      cases h
      exact ⟨rfl, rfl⟩
  | some ps =>
      obtain ⟨vr, _, _, he⟩ := entryFor_known hps h
      subst he
      exact ⟨rfl, rfl⟩

/-- A `oneOf` alternative on which the pattern loop of
`#validateColorProperty` cannot throw: not `null` (whose field read throws),
and when its `pattern` and `patternErrorMessage` are both truthy the pattern
must compile. -/
def goodOpt (compile : String → Option (String → Bool)) (opt : JVal) : Bool :=
  if opt = .null then false
  else
    !(truthy (getF opt "pattern") && truthy (getF opt "patternErrorMessage")) ||
    (compile (jsStr ((getF opt "pattern").getD .null))).isSome

/-- A descriptor on which `validate`'s known-key branch cannot throw: not
`null` (the deprecation read throws), with a `oneOf` that is absent, falsy,
a string, or an array of good alternatives. -/
def goodPS (compile : String → Option (String → Bool)) (ps : JVal) : Bool :=
  if ps = .null then false
  else
    match getF ps "oneOf" with
    | some (.arr opts) => opts.all (goodOpt compile)
    | some (.str _) => true
    | some v => !truthyV v
    | none => true

theorem validateOptions_total {compile : String → Option (String → Bool)}
    {s : String} :
    ∀ opts : List JVal, (∀ o ∈ opts, goodOpt compile o = true) →
      ∃ r, validateOptions compile s opts = .ok r := by
  intro opts h
  induction opts with
  | nil => exact ⟨⟨true, none⟩, rfl⟩
  | cons o rest ih =>
      obtain ⟨r, hr⟩ := ih fun o' ho' => h o' (List.mem_cons_of_mem _ ho')
      have ho := h o (List.mem_cons_self _ _)
      have honn : o ≠ .null := by
        intro hn
        subst hn
        simp [goodOpt] at ho
      cases hpat : truthy (getF o "pattern") with
      | false =>
          exact ⟨r, by simp [validateOptions, prop_eq_ok_getF o _ honn, hpat, hr]⟩
      | true =>
          cases hpem : truthy (getF o "patternErrorMessage") with
          | false =>
              exact ⟨r, by simp [validateOptions, prop_eq_ok_getF o _ honn,
                hpat, hpem, hr]⟩
          | true =>
              have hsome : (compile (jsStr ((getF o "pattern").getD .null))).isSome = true := by
                cases o <;> simp_all [goodOpt]
              obtain ⟨t, ht⟩ := Option.isSome_iff_exists.mp hsome
              cases hts : t s with
              | true =>
                  exact ⟨r, by simp [validateOptions, prop_eq_ok_getF o _ honn,
                    hpat, hpem, ht, hts, hr]⟩
              | false =>
                  exact ⟨⟨false, some (jsNullish (getF o "patternErrorMessage")
                      (.str genericTransparencyMsg))⟩,
                    by simp [validateOptions, prop_eq_ok_getF o _ honn,
                      hpat, hpem, ht, hts]⟩

theorem transparencyStage_total {compile : String → Option (String → Bool)}
    {s : String} {ps : JVal} (h : goodPS compile ps = true) :
    ∃ r, transparencyStage compile s ps = .ok r := by
  cases hps : truthyV ps with
  | false => exact ⟨⟨true, none⟩, by simp [transparencyStage, hps]⟩
  | true =>
      cases hoo : getF ps "oneOf" with
      | none => exact ⟨⟨true, none⟩, by simp [transparencyStage, hps, hoo]⟩
      | some v =>
          have hobj : ∃ fs, ps = .obj fs := by
            cases ps <;> simp [getF] at hoo
            exact ⟨_, rfl⟩
          obtain ⟨fs, rfl⟩ := hobj
          rw [goodPS] at h
          simp only [reduceCtorEq, if_false, hoo] at h
          cases v with
          | arr opts =>
              have hall : ∀ o ∈ opts, goodOpt compile o = true :=
                List.all_eq_true.mp h
              obtain ⟨r, hr⟩ := validateOptions_total (s := s) opts hall
              exact ⟨r, by simp [transparencyStage, hps, hoo, hr]⟩
          | str t => exact ⟨⟨true, none⟩, by simp [transparencyStage, hps, hoo]⟩
          | num n =>
              simp only [Bool.not_eq_true'] at h
              exact ⟨⟨true, none⟩, by simp [transparencyStage, hps, hoo, h]⟩
          | bool b =>
              simp only [Bool.not_eq_true'] at h
              exact ⟨⟨true, none⟩, by simp [transparencyStage, hps, hoo, h]⟩
          | null => exact ⟨⟨true, none⟩, by simp [transparencyStage, hps, hoo, truthyV]⟩
          | obj gs => simp [truthyV] at h

theorem validateColorProperty_total {compile : String → Option (String → Bool)}
    {v ps : JVal} (h : goodPS compile ps = true) :
    ∃ r, validateColorProperty compile v ps = .ok r := by
  cases v with
  | str s =>
      cases hf : (s == "default" || colourHexTest s) with
      | true =>
          obtain ⟨r, hr⟩ := transparencyStage_total (s := s) h
          exact ⟨r, by simp [validateColorProperty, hf, hr]⟩
      | false =>
          exact ⟨⟨false, some (.str "Invalid color format. Use #RGB, #RGBA, #RRGGBB or #RRGGBBAA.")⟩,
            by simp [validateColorProperty, hf]⟩
  | num n => exact ⟨_, rfl⟩
  | bool b => exact ⟨_, rfl⟩
  | null => exact ⟨_, rfl⟩
  | arr xs => exact ⟨_, rfl⟩
  | obj fs => exact ⟨_, rfl⟩

theorem entryFor_total {compile : String → Option (String → Bool)}
    {schema : List (String × JVal)} {k : String} {v : JVal}
    (h : schema.all (fun kv => goodPS compile kv.2) = true) :
    ∃ e, entryFor compile schema k v = .ok e := by
  cases hps : aGet schema k with
  | none => exact ⟨_, entryFor_unknown hps⟩
  | some ps =>
      have hgood : goodPS compile ps = true := by
        have hmem := aGet_mem schema k ps hps
        exact (List.all_eq_true.mp h) _ hmem
      have honn : ps ≠ .null := by
        intro hn
        subst hn
        simp [goodPS] at hgood
      obtain ⟨vr, hvr⟩ := validateColorProperty_total (v := v) hgood
      cases he : entryFor compile schema k v with
      | ok e => exact ⟨e, rfl⟩
      | error err =>
          exfalso
          simp [entryFor, hps, hvr, prop_eq_ok_getF ps _ honn] at he

/-! ## Claim C1 -/

/-- A schema whose single descriptor carries a `oneOf` alternative with the
malformed pattern `"("` and a non-empty `patternErrorMessage`. -/
def badPatternSchema : List (String × JVal) :=
  [("editor.background",
    .obj [("oneOf", .arr [.obj [("pattern", .str "("),
                                ("patternErrorMessage", .str "bad")]])])]

/-- C1 counterexample: with a structurally valid schema map and user color
mapping, a malformed regular expression inside a descriptor's `oneOf` makes
`Validator.validate` raise (the pattern is compiled in
`#validateColorProperty` with no `try/catch`, and `validate`'s own `catch`
re-throws), so no result list is returned. -/
theorem c1_counterexample :
    validate egCompile badPatternSchema [("editor.background", .str "#aabbcc")] =
      .error "Invalid regular expression: (" := by decide

/-- C1 (amended): `Validator.validate` returns a result list and never raises
provided, in addition to the claimed structural validity, that every
descriptor in the schema map is a non-`null` value whose `oneOf`, when
truthy, is an array (or a string) of non-`null` alternatives in which every
alternative carrying both a truthy `pattern` and a truthy
`patternErrorMessage` has a compilable pattern. -/
theorem c1_amended (compile : String → Option (String → Bool))
    (schema colors : List (String × JVal))
    (h : schema.all (fun kv => goodPS compile kv.2) = true) :
    ∃ rs, validate compile schema colors = .ok rs := by
  induction colors with
  | nil => exact ⟨[], rfl⟩
  | cons kv rest ih =>
      obtain ⟨k, v⟩ := kv
      obtain ⟨e, he⟩ := entryFor_total (k := k) (v := v) h
      obtain ⟨es, hes⟩ := ih
      exact ⟨e :: es, by simp [validate, he, hes]⟩

/-- C1 witness: the amended theorem applied to a concrete schema (one plain
descriptor, one descriptor with a compilable transparency pattern) and a
mixed user color mapping. -/
theorem c1_witness :
    ∃ rs, validate egCompile
      [("a", .obj []),
       ("b", .obj [("oneOf", .arr [.obj [("pattern", .str "^#[0-9a-fA-F]{8}$"),
                                         ("patternErrorMessage", .str "need alpha")]])])]
      [("a", .str "#abc"), ("b", .str "#aabbcc"), ("zz", .num 3)] = .ok rs :=
  c1_amended egCompile _ _ (by decide)

/-! ## Claim C3 -/

/-- C3: for every user color entry whose key is present in the schema map and
whose descriptor carries a non-empty (truthy) `deprecationMessage`, the
corresponding result entry of a completed `validate` run has status `"warn"`
and message equal to the deprecation text, regardless of the value supplied
and of the property check's outcome. -/
theorem c3_deprecation_overrides (compile : String → Option (String → Bool))
    (schema colors : List (String × JVal)) (rs : List VResult)
    (i : Nat) (hc : i < colors.length) (hr : i < rs.length)
    (k : String) (v ps : JVal)
    (hok : validate compile schema colors = .ok rs)
    (hkv : colors.get ⟨i, hc⟩ = (k, v))
    (hps : aGet schema k = some ps)
    (hdep : truthy (getF ps "deprecationMessage") = true) :
    (rs.get ⟨i, hr⟩).status = "warn" ∧
    (rs.get ⟨i, hr⟩).message = getF ps "deprecationMessage" := by
  obtain ⟨hlen, hget⟩ := validate_get colors rs hok
  have he := hget i hc hr
  rw [hkv] at he
  obtain ⟨vr, hvr, hnn, hee⟩ := entryFor_known hps he
  rw [hee]
  exact ⟨by simp [hdep], by simp [hdep]⟩

/-- C3 witness: a deprecated property with a malformed (non-string) value
still reports `warn` with the deprecation text. -/
theorem c3_witness :
    (([{ property := "c", status := "warn", description := .str "d",
         value := .num 5, message := some (.str "use other") }] : List VResult).get
        ⟨0, by decide⟩).status = "warn" ∧
    (([{ property := "c", status := "warn", description := .str "d",
         value := .num 5, message := some (.str "use other") }] : List VResult).get
        ⟨0, by decide⟩).message =
      getF (.obj [("deprecationMessage", .str "use other"),
                  ("description", .str "d")]) "deprecationMessage" :=
  c3_deprecation_overrides egCompile
    [("c", .obj [("deprecationMessage", .str "use other"),
                 ("description", .str "d")])]
    [("c", .num 5)] _ 0 (by decide) (by decide) "c" (.num 5)
    (.obj [("deprecationMessage", .str "use other"), ("description", .str "d")])
    (by decide) (by decide) (by decide) (by decide)

/-! ## Claim C4 -/

/-- C4 counterexample: an alternative carrying a `pattern` together with an
empty `patternErrorMessage` is skipped entirely by the loop guard
(`option.pattern && option.patternErrorMessage`), so a value rejected by the
pattern is still reported valid — the claim instead requires an invalid
result carrying the generic transparency text. -/
theorem c4_counterexample :
    validateColorProperty egCompile (.str "#aabbcc")
        (.obj [("oneOf", .arr [.obj [("pattern", .str "^#[0-9a-fA-F]{8}$"),
                                     ("patternErrorMessage", .str "")]])]) =
      .ok ⟨true, none⟩ ∧
    (⟨true, none⟩ : PropVR) ≠
      ⟨false, some (.str genericTransparencyMsg)⟩ := by
  exact ⟨by decide, by decide⟩

/-- An alternative that the pattern loop passes through without failing on
value `s`: either the truthiness guard on `pattern`/`patternErrorMessage`
rejects it (so it is skipped), or its pattern compiles and accepts `s`. A
`null` alternative throws and never passes. -/
def passesOrSkipped (compile : String → Option (String → Bool)) (s : String)
    (o : JVal) : Bool :=
  if o = .null then false
  else if truthy (getF o "pattern") && truthy (getF o "patternErrorMessage") then
    match compile (jsStr ((getF o "pattern").getD .null)) with
    | some t => t s
    | none => false
  else true

/-- C4 (amended): alternatives carrying both a truthy `pattern` and a truthy
`patternErrorMessage` are tested in declaration order; the first whose
pattern rejects the value yields the invalid result with that alternative's
`patternErrorMessage`, and no later alternative is consulted. Alternatives
whose `patternErrorMessage` is empty (or whose `pattern` is empty) are
skipped outright, so the generic transparency text is unreachable. -/
theorem c4_amended (compile : String → Option (String → Bool)) (s : String)
    (pre rest : List JVal) (opt p pem : JVal) (t : String → Bool)
    (hpre : pre.all (passesOrSkipped compile s) = true)
    (hp : getF opt "pattern" = some p) (hpt : truthyV p = true)
    (hm : getF opt "patternErrorMessage" = some pem) (hmt : truthyV pem = true)
    (hcomp : compile (jsStr p) = some t) (hts : t s = false) :
    validateOptions compile s (pre ++ opt :: rest) = .ok ⟨false, some pem⟩ := by
  induction pre with
  | nil =>
      have honn : opt ≠ .null := by
        intro hn
        subst hn
        simp [getF] at hp
      simp [validateOptions, prop_eq_ok_getF opt _ honn, hp, hm, truthy, hpt,
        hmt, hcomp, hts, jsNullish_of_truthy pem _ hmt]
  | cons o pre' ih =>
      have ho : passesOrSkipped compile s o = true := by
        have := List.all_eq_true.mp hpre o (List.mem_cons_self _ _)
        exact this
      have hpre' : pre'.all (passesOrSkipped compile s) = true :=
        List.all_eq_true.mpr fun o' ho' =>
          List.all_eq_true.mp hpre o' (List.mem_cons_of_mem _ ho')
      have honn : o ≠ .null := by
        intro hn
        subst hn
        simp [passesOrSkipped] at ho
      rw [passesOrSkipped, if_neg honn] at ho
      by_cases hg : (truthy (getF o "pattern") && truthy (getF o "patternErrorMessage")) = true
      · rw [if_pos hg] at ho
        cases hc' : compile (jsStr ((getF o "pattern").getD .null)) with
        | none => rw [hc'] at ho; exact absurd ho (by simp)
        | some t' =>
            rw [hc'] at ho
            have hts' : t' s = true := by simpa using ho
            have hpat := Bool.and_elim_left hg
            have hpem := Bool.and_elim_right hg
            simpa [validateOptions, prop_eq_ok_getF o _ honn, hpat, hpem, hc', hts']
              using ih hpre'
      · have hgp : ¬(truthy (getF o "pattern") = true ∧
            truthy (getF o "patternErrorMessage") = true) := by
          simpa [Bool.and_eq_true] using hg
        simpa [validateOptions, prop_eq_ok_getF o _ honn, hgp]
          using ih hpre'

/-- C4 witness: the amended theorem at a concrete descriptor — a skipped
empty-message alternative, then a failing pattern with a configured message,
then a later alternative that is never consulted. -/
theorem c4_witness :
    validateOptions egCompile "#aabbcc"
      ([.obj [("pattern", .str "^#[0-9a-fA-F]{8}$"), ("patternErrorMessage", .str "")]] ++
       (.obj [("pattern", .str "^#[0-9a-fA-F]{8}$"), ("patternErrorMessage", .str "need alpha")]) ::
       [.obj [("pattern", .str "("), ("patternErrorMessage", .str "later")]]) =
      .ok ⟨false, some (.str "need alpha")⟩ :=
  c4_amended egCompile "#aabbcc" _ _ _ (.str "^#[0-9a-fA-F]{8}$")
    (.str "need alpha") test8Hex (by decide) (by decide) (by decide)
    (by decide) (by decide) rfl (by decide)

/-! ## Claim C5 -/

/-- Whether a value is a string (`typeof value === "string"`). -/
def isStrB : JVal → Bool
  | .str _ => true
  | _ => false

/-- When the descriptor's `oneOf` is absent or falsy, the transparency stage
accepts every value. -/
theorem transparencyStage_of_no_oneOf {compile : String → Option (String → Bool)}
    {s : String} {ps : JVal} (h : truthy (getF ps "oneOf") = false) :
    transparencyStage compile s ps = .ok ⟨true, none⟩ := by
  cases hps : truthyV ps with
  | false => simp [transparencyStage, hps]
  | true =>
      cases hoo : getF ps "oneOf" with
      | none => simp [transparencyStage, hps, hoo]
      | some v =>
          rw [hoo] at h
          cases v <;> simp_all [transparencyStage, hps, hoo, truthy, truthyV]

/-- The check on a descriptor without a truthy `oneOf`, as a function of the
value alone. -/
theorem vcp_no_oneOf {compile : String → Option (String → Bool)}
    {ps : JVal} (hoo : truthy (getF ps "oneOf") = false) (v : JVal) :
    validateColorProperty compile v ps =
      match v with
      | .str s =>
          if (s == "default" || colourHexTest s) then .ok ⟨true, none⟩
          else .ok ⟨false, some (.str "Invalid color format. Use #RGB, #RGBA, #RRGGBB or #RRGGBBAA.")⟩
      | _ => .ok ⟨false, some (.str "Color values must be strings")⟩ := by
  cases v with
  | str s =>
      cases hf : (s == "default" || colourHexTest s) with
      | true => simp [validateColorProperty, hf, transparencyStage_of_no_oneOf hoo]
      | false => simp [validateColorProperty, hf]
  | num n => rfl
  | bool b => rfl
  | null => rfl
  | arr xs => rfl
  | obj fs => rfl

/-- C5: on a known, non-deprecated property the check fails with
"Color values must be strings" on every non-string value, fails with the
format message on every string that is neither the literal `default` nor in
the hex-color grammar, and otherwise proceeds to the transparency stage
("passes the format stage"); on descriptors without a truthy `oneOf` (where
no pattern can interfere) these outcomes are exact characterisations. The
particular values named by the claim behave as stated against a plain
descriptor. -/
theorem c5_format_stage :
    (∀ (compile : String → Option (String → Bool)) (ps v : JVal),
      (isStrB v = false →
        validateColorProperty compile v ps =
          .ok ⟨false, some (.str "Color values must be strings")⟩) ∧
      (∀ s, v = .str s → (s == "default" || colourHexTest s) = false →
        validateColorProperty compile v ps =
          .ok ⟨false, some (.str "Invalid color format. Use #RGB, #RGBA, #RRGGBB or #RRGGBBAA.")⟩) ∧
      (∀ s, v = .str s → (s == "default" || colourHexTest s) = true →
        validateColorProperty compile v ps = transparencyStage compile s ps) ∧
      (truthy (getF ps "oneOf") = false →
        ((validateColorProperty compile v ps =
            .ok ⟨false, some (.str "Color values must be strings")⟩ ↔ isStrB v = false) ∧
         (validateColorProperty compile v ps =
            .ok ⟨false, some (.str "Invalid color format. Use #RGB, #RGBA, #RRGGBB or #RRGGBBAA.")⟩ ↔
            ∃ s, v = .str s ∧ (s == "default" || colourHexTest s) = false) ∧
         (validateColorProperty compile v ps = .ok ⟨true, none⟩ ↔
            ∃ s, v = .str s ∧ (s == "default" || colourHexTest s) = true)))) ∧
    validateColorProperty egCompile (.str "blue") (.obj []) =
      .ok ⟨false, some (.str "Invalid color format. Use #RGB, #RGBA, #RRGGBB or #RRGGBBAA.")⟩ ∧
    validateColorProperty egCompile (.str "#12") (.obj []) =
      .ok ⟨false, some (.str "Invalid color format. Use #RGB, #RGBA, #RRGGBB or #RRGGBBAA.")⟩ ∧
    validateColorProperty egCompile (.str "#12345") (.obj []) =
      .ok ⟨false, some (.str "Invalid color format. Use #RGB, #RGBA, #RRGGBB or #RRGGBBAA.")⟩ ∧
    validateColorProperty egCompile (.num 123456) (.obj []) =
      .ok ⟨false, some (.str "Color values must be strings")⟩ ∧
    validateColorProperty egCompile (.str "#abc") (.obj []) = .ok ⟨true, none⟩ ∧
    validateColorProperty egCompile (.str "#abcd") (.obj []) = .ok ⟨true, none⟩ ∧
    validateColorProperty egCompile (.str "#aabbcc") (.obj []) = .ok ⟨true, none⟩ ∧
    validateColorProperty egCompile (.str "#aabbccdd") (.obj []) = .ok ⟨true, none⟩ ∧
    validateColorProperty egCompile (.str "default") (.obj []) = .ok ⟨true, none⟩ := by
  refine ⟨?_, by decide, by decide, by decide, by decide, by decide, by decide,
    by decide, by decide, by decide⟩
  intro compile ps v
  refine ⟨?_, ?_, ?_, ?_⟩
  · intro h
    cases v <;> simp [isStrB] at h <;> rfl
  · intro s hv hf
    subst hv
    simp [validateColorProperty, hf]
  · intro s hv hf
    subst hv
    simp [validateColorProperty, hf]
  · intro hoo
    rw [vcp_no_oneOf hoo v]
    cases v with
    | str s =>
        cases hf : (s == "default" || colourHexTest s) with
        | true =>
            have h' : s = "default" ∨ colourHexTest s = true := by simpa using hf
            simp [hf]
            exact ⟨rfl, fun hne => h'.resolve_left hne, h'⟩
        | false =>
            have h' : ¬s = "default" ∧ colourHexTest s = false := by simpa using hf
            simp [hf]
            exact ⟨rfl, h'.1, h'.2⟩
    | num n => simp [isStrB]
    | bool b => simp [isStrB]
    | null => simp [isStrB]
    | arr xs => simp [isStrB]
    | obj fs => simp [isStrB]

/-- C5 witness: the universally quantified part applied to the non-string
value `123456` against a plain descriptor. -/
theorem c5_witness :
    validateColorProperty egCompile (.num 123456) (.obj []) =
      .ok ⟨false, some (.str "Color values must be strings")⟩ :=
  (c5_format_stage.1 egCompile (.obj []) (.num 123456)).1 (by decide)

/-! ## Claim C7 -/

/-- C7: every user color entry whose key is absent from the schema map yields
exactly one result entry (the output has one entry per input entry), with
status `"invalid"`, empty description, the unmodified value, and the message
"Property <key> is not allowed.", independently of the value. -/
theorem c7_unknown_property (compile : String → Option (String → Bool))
    (schema colors : List (String × JVal)) (rs : List VResult)
    (i : Nat) (hc : i < colors.length) (hr : i < rs.length)
    (k : String) (v : JVal)
    (hok : validate compile schema colors = .ok rs)
    (hkv : colors.get ⟨i, hc⟩ = (k, v))
    (hps : aGet schema k = none) :
    rs.length = colors.length ∧
    rs.get ⟨i, hr⟩ =
      { property := k, status := "invalid", description := .str "", value := v,
        message := some (.str ("Property " ++ k ++ " is not allowed.")) } := by
  obtain ⟨hlen, hget⟩ := validate_get colors rs hok
  have he := hget i hc hr
  rw [hkv] at he
  rw [entryFor_unknown hps] at he
  exact ⟨hlen, (Except.ok.inj he).symm⟩

/-- C7 witness: an unknown property with a perfectly well-formed value is
still reported as not allowed. -/
theorem c7_witness :
    ([({ property := "no.such.prop", status := "invalid", description := .str "",
         value := .str "#fff",
         message := some (.str "Property no.such.prop is not allowed.") } : VResult)]).length =
      ([(("no.such.prop" : String), JVal.str "#fff")]).length ∧
    ([({ property := "no.such.prop", status := "invalid", description := .str "",
         value := .str "#fff",
         message := some (.str "Property no.such.prop is not allowed.") } : VResult)]).get
        ⟨0, by decide⟩ =
      { property := "no.such.prop", status := "invalid", description := .str "",
        value := .str "#fff",
        message := some (.str "Property no.such.prop is not allowed.") } :=
  c7_unknown_property egCompile [("c", .obj [])] _ _ 0 (by decide) (by decide)
    "no.such.prop" (.str "#fff") (by decide) (by decide) (by decide)

/-! ## Claim C8 -/

/-- C8: a completed `validate` run returns exactly one entry per input entry,
in the input's iteration order: the list of `property` fields is the list of
input keys and the list of `value` fields is the list of input values,
unmodified. -/
theorem c8_order_preservation (compile : String → Option (String → Bool))
    (schema : List (String × JVal)) :
    ∀ (colors : List (String × JVal)) (rs : List VResult),
      validate compile schema colors = .ok rs →
      rs.map (fun e => e.property) = colors.map Prod.fst ∧
      rs.map (fun e => e.value) = colors.map Prod.snd := by
  intro colors
  induction colors with
  | nil =>
      intro rs h
      simp [validate] at h
      subst h
      exact ⟨rfl, rfl⟩
  | cons kv rest ih =>
      intro rs h
      obtain ⟨k, v⟩ := kv
      obtain ⟨e, es, he, hes, hrs⟩ := validate_cons h
      subst hrs
      obtain ⟨hprop, hval⟩ := entryFor_property_value he
      obtain ⟨ih1, ih2⟩ := ih es hes
      exact ⟨by simp [hprop, ih1], by simp [hval, ih2]⟩

/-- C8 witness: order and values preserved on a concrete three-entry mapping
mixing known, unknown and non-string entries. -/
theorem c8_witness :
    ∃ rs, validate egCompile [("c", .obj [])]
        [("c", .str "#abc"), ("zz", .num 7), ("c", .str "blue")] = .ok rs ∧
      rs.map (fun e => e.property) = ["c", "zz", "c"] ∧
      rs.map (fun e => e.value) = [.str "#abc", .num 7, .str "blue"] := by
  refine ⟨_, rfl, ?_⟩
  exact c8_order_preservation egCompile [("c", .obj [])]
    [("c", .str "#abc"), ("zz", .num 7), ("c", .str "blue")] _ rfl

/-! ## Association-list and resolver lemmas -/

theorem aGet_aSet_self : ∀ (fs : List (String × JVal)) (k : String) (v : JVal),
    aGet (aSet fs k v) k = some v := by
  intro fs k v
  induction fs with
  | nil => simp [aSet, aGet]
  | cons kv rest ih =>
      obtain ⟨k', v'⟩ := kv
      by_cases hk : k' = k
      · simp [aSet, aGet, hk]
      · simp [aSet, aGet, hk, ih]

theorem aGet_aSet_ne : ∀ (fs : List (String × JVal)) (k k' : String) (v : JVal),
    k ≠ k' → aGet (aSet fs k v) k' = aGet fs k' := by
  intro fs k k' v hne
  induction fs with
  | nil => simp [aSet, aGet, hne]
  | cons kv rest ih =>
      obtain ⟨k0, v0⟩ := kv
      by_cases hk : k0 = k
      · subst hk
        simp [aSet, aGet, hne]
      · simp [aSet, aGet, hk, ih]

theorem aGet_eq_none_iff : ∀ (fs : List (String × JVal)) (k : String),
    aGet fs k = none ↔ k ∉ fs.map Prod.fst := by
  intro fs k
  induction fs with
  | nil => simp [aGet]
  | cons kv rest ih =>
      obtain ⟨k', v'⟩ := kv
      by_cases hk : k' = k
      · subst hk
        simp [aGet]
      · simp [aGet, hk, ih, Ne.symm hk]

theorem aSet_of_not_mem : ∀ (fs : List (String × JVal)) (k : String) (v : JVal),
    k ∉ fs.map Prod.fst → aSet fs k v = fs ++ [(k, v)] := by
  intro fs k v h
  induction fs with
  | nil => simp [aSet]
  | cons kv rest ih =>
      obtain ⟨k', v'⟩ := kv
      simp only [List.map_cons, List.mem_cons] at h
      push_neg at h
      simp [aSet, Ne.symm h.1, ih h.2]

theorem foldl_aSet_append :
    ∀ (entries acc : List (String × JVal)),
      (entries.map Prod.fst).Nodup →
      (∀ k ∈ entries.map Prod.fst, k ∉ acc.map Prod.fst) →
      entries.foldl (fun m kv => aSet m kv.1 kv.2) acc = acc ++ entries := by
  intro entries
  induction entries with
  | nil => intro acc _ _; simp
  | cons kv rest ih =>
      intro acc hnd hdisj
      obtain ⟨k, v⟩ := kv
      simp only [List.map_cons, List.nodup_cons] at hnd
      have hkacc : k ∉ acc.map Prod.fst :=
        hdisj k (by simp)
      have hstep : aSet acc k v = acc ++ [(k, v)] := aSet_of_not_mem acc k v hkacc
      have hdisj' : ∀ k' ∈ rest.map Prod.fst, k' ∉ (acc ++ [(k, v)]).map Prod.fst := by
        intro k' hk'
        simp only [List.map_append, List.mem_append]
        push_neg
        refine ⟨hdisj k' (by simp [hk']), ?_⟩
        simp only [List.map_cons, List.map_nil, List.mem_singleton]
        intro hkk
        exact hnd.1 (hkk ▸ hk')
      calc ((k, v) :: rest).foldl (fun m kv => aSet m kv.1 kv.2) acc
          = rest.foldl (fun m kv => aSet m kv.1 kv.2) (aSet acc k v) := by simp
        _ = rest.foldl (fun m kv => aSet m kv.1 kv.2) (acc ++ [(k, v)]) := by rw [hstep]
        _ = (acc ++ [(k, v)]) ++ rest := ih (acc ++ [(k, v)]) hnd.2 hdisj'
        _ = acc ++ ((k, v) :: rest) := by simp

/-- With pairwise distinct keys (the case for every object produced by a
parse), the output `Map` is, as an association list, exactly the transformed
entries list. -/
theorem schemaMapOf_eq_self (entries : List (String × JVal))
    (h : (entries.map Prod.fst).Nodup) : schemaMapOf entries = entries := by
  simpa [schemaMapOf] using
    foldl_aSet_append entries [] h (by simp)

theorem mem_aSet : ∀ (fs : List (String × JVal)) (k' : String) (v' : JVal)
    (kv : String × JVal), kv ∈ aSet fs k' v' → kv ∈ fs ∨ kv = (k', v') := by
  intro fs k' v' kv
  induction fs with
  | nil =>
      intro h
      simp only [aSet, List.mem_singleton] at h
      exact Or.inr h
  | cons kv0 rest ih =>
      intro h
      obtain ⟨k0, v0⟩ := kv0
      by_cases hk : k0 = k'
      · subst hk
        simp only [aSet, if_true, eq_self_iff_true, List.mem_cons] at h
        rcases h with h | h
        · exact Or.inr (by simp [h])
        · exact Or.inl (List.mem_cons_of_mem _ h)
      · simp only [aSet, if_neg hk, List.mem_cons] at h
        rcases h with h | h
        · exact Or.inl (by simp [h])
        · rcases ih h with h' | h'
          · exact Or.inl (List.mem_cons_of_mem _ h')
          · exact Or.inr h'

theorem mem_foldl_aSet :
    ∀ (entries acc : List (String × JVal)) (kv : String × JVal),
      kv ∈ entries.foldl (fun m p => aSet m p.1 p.2) acc →
      kv ∈ acc ∨ kv ∈ entries := by
  intro entries
  induction entries with
  | nil =>
      intro acc kv h
      simp only [List.foldl_nil] at h
      exact Or.inl h
  | cons p rest ih =>
      intro acc kv h
      simp only [List.foldl_cons] at h
      rcases ih (aSet acc p.1 p.2) kv h with h' | h'
      · rcases mem_aSet acc p.1 p.2 kv h' with h'' | h''
        · exact Or.inl h''
        · exact Or.inr (by simp [h''])
      · exact Or.inr (List.mem_cons_of_mem _ h')

/-- `resolveEntries` preserves the key list of the document's properties. -/
theorem resolveEntries_keys {compile : String → Option (String → Bool)}
    {defs : Option JVal} :
    ∀ (entries : List (String × JVal)) (cache : Cache)
      (entries' : List (String × JVal)) (cache' : Cache),
      resolveEntries compile defs entries cache = .ok (entries', cache') →
      entries'.map Prod.fst = entries.map Prod.fst := by
  intro entries
  induction entries with
  | nil =>
      intro cache entries' cache' h
      simp [resolveEntries] at h
      simp [h.1.symm]
  | cons kv rest ih =>
      intro cache entries' cache' h
      obtain ⟨k, v⟩ := kv
      cases hn : resolveNode compile defs v cache with
      | error e => simp [resolveEntries, hn] at h
      | ok vc =>
          obtain ⟨v', c1⟩ := vc
          cases hr : resolveEntries compile defs rest c1 with
          | error e => simp [resolveEntries, hn, hr] at h
          | ok rc =>
              obtain ⟨rest', c2⟩ := rc
              simp only [resolveEntries, hn, hr, Except.ok.injEq, Prod.mk.injEq] at h
              rw [← h.1]
              simp [ih c1 rest' c2 hr]

/-- Every node produced by a successful `resolveNode` call is the image of
the transparency-derivation stage. -/
theorem resolveNode_alphaImage {compile : String → Option (String → Bool)}
    {defs : Option JVal} {v : JVal} {cache : Cache} {v' : JVal} {cache' : Cache}
    (h : resolveNode compile defs v cache = .ok (v', cache')) :
    ∃ w, v' = alphaStage compile w := by
  cases h1 : refStage defs v cache with
  | error e => simp [resolveNode, h1] at h
  | ok vc =>
      obtain ⟨v1, c1⟩ := vc
      cases h2 : oneOfStage defs v1 c1 with
      | error e => simp [resolveNode, h1, h2] at h
      | ok vc2 =>
          obtain ⟨v2, c2⟩ := vc2
          simp only [resolveNode, h1, h2, Except.ok.injEq, Prod.mk.injEq] at h
          exact ⟨v2, h.1.symm⟩

/-- Every descriptor in the transformed entries of a successful resolver run
is an `alphaStage` image. -/
theorem resolveEntries_alphaImage {compile : String → Option (String → Bool)}
    {defs : Option JVal} :
    ∀ (entries : List (String × JVal)) (cache : Cache)
      (entries' : List (String × JVal)) (cache' : Cache),
      resolveEntries compile defs entries cache = .ok (entries', cache') →
      ∀ k ps, (k, ps) ∈ entries' → ∃ w, ps = alphaStage compile w := by
  intro entries
  induction entries with
  | nil =>
      intro cache entries' cache' h k ps hmem
      simp [resolveEntries] at h
      rw [h.1] at hmem
      simp at hmem
  | cons kv rest ih =>
      intro cache entries' cache' h k ps hmem
      obtain ⟨k0, v0⟩ := kv
      cases hn : resolveNode compile defs v0 cache with
      | error e => simp [resolveEntries, hn] at h
      | ok vc =>
          obtain ⟨v', c1⟩ := vc
          cases hr : resolveEntries compile defs rest c1 with
          | error e => simp [resolveEntries, hn, hr] at h
          | ok rc =>
              obtain ⟨rest', c2⟩ := rc
              simp only [resolveEntries, hn, hr, Except.ok.injEq, Prod.mk.injEq] at h
              rw [← h.1] at hmem
              rcases List.mem_cons.mp hmem with h' | h'
              · have hps : ps = v' := congrArg Prod.snd h'
                exact hps ▸ resolveNode_alphaImage hn
              · exact ih c1 rest' c2 hr k ps h'

/-- A successful `resolveSchema` run decomposed: the destructured
`properties`, its entries, the transformed entries (which are the returned
document state), and the output map built from them. -/
theorem resolveSchema_ok {compile : String → Option (String → Bool)}
    {loaded : JVal} {m d : List (String × JVal)}
    (h : resolveSchema compile loaded = .ok (m, d)) :
    ∃ po entries cache',
      prop loaded "properties" = .ok po ∧
      jsEntries (po.getD .null) = .ok entries ∧
      resolveEntries compile (getF loaded "$defs") entries [] = .ok (d, cache') ∧
      m = schemaMapOf d := by
  cases hp : prop loaded "properties" with
  | error e => simp [resolveSchema, hp] at h
  | ok po =>
      cases he : jsEntries (po.getD .null) with
      | error e => simp [resolveSchema, hp, he] at h
      | ok entries =>
          cases hr : resolveEntries compile (getF loaded "$defs") entries [] with
          | error e => simp [resolveSchema, hp, he, hr] at h
          | ok rc =>
              obtain ⟨entries', cache'⟩ := rc
              simp only [resolveSchema, hp, he, hr, Except.ok.injEq,
                Prod.mk.injEq] at h
              refine ⟨po, entries, cache', ?_, ?_, ?_, h.2 ▸ h.1.symm⟩ <;>
                first
                | rfl
                | (rw [← h.2]; exact hr)
                | exact hp
                | exact he

/-- The `oneOf` alternatives scanned by the transparency derivation: the
elements when `oneOf` is an array, nothing otherwise. -/
def oneOfOpts (v : JVal) : List JVal :=
  match getF v "oneOf" with
  | some (.arr o) => o
  | _ => []

/-- Some truthy alternative carries a truthy `pattern` that compiles and
accepts the probe — the condition under which the derivation loop marks a
probe as allowed. -/
def acceptsProbe (compile : String → Option (String → Bool))
    (opts : List JVal) (probe : String) : Bool :=
  opts.any fun opt =>
    truthyV opt &&
      (match getF opt "pattern" with
       | some p =>
           truthyV p &&
             (match compile (jsStr p) with
              | some t => t probe
              | none => false)
       | none => false)

theorem alphaScan_foldl (compile : String → Option (String → Bool)) :
    ∀ (opts : List JVal) (a : Bool × Bool),
      opts.foldl
        (fun acc opt =>
          if !truthyV opt then acc
          else match getF opt "pattern" with
            | some p =>
                if truthyV p then
                  match compile (jsStr p) with
                  | none => acc
                  | some test => (acc.1 || test "#ffffff", acc.2 || test "#ffffffaa")
                else acc
            | none => acc) a =
      (a.1 || acceptsProbe compile opts "#ffffff",
       a.2 || acceptsProbe compile opts "#ffffffaa") := by
  intro opts
  induction opts with
  | nil => intro a; simp [acceptsProbe]
  | cons o rest ih =>
      intro a
      simp only [List.foldl_cons, acceptsProbe, List.any_cons]
      cases hto : truthyV o with
      | false => simpa [hto, acceptsProbe] using ih a
      | true =>
          cases hgp : getF o "pattern" with
          | none => simpa [hto, hgp, acceptsProbe] using ih a
          | some p =>
              cases htp : truthyV p with
              | false => simpa [hto, hgp, htp, acceptsProbe] using ih a
              | true =>
                  cases hcp : compile (jsStr p) with
                  | none => simpa [hto, hgp, htp, hcp, acceptsProbe] using ih a
                  | some t =>
                      simpa [hto, hgp, htp, hcp, acceptsProbe, Bool.or_assoc]
                        using ih (a.1 || t "#ffffff", a.2 || t "#ffffffaa")

theorem alphaScan_eq (compile : String → Option (String → Bool)) (v : JVal) :
    (match getF v "oneOf" with
     | some (.arr opts) => alphaScan compile opts
     | _ => ((false, false) : Bool × Bool)) =
      (acceptsProbe compile (oneOfOpts v) "#ffffff",
       acceptsProbe compile (oneOfOpts v) "#ffffffaa") := by
  cases hoo : getF v "oneOf" with
  | none => simp [oneOfOpts, hoo, acceptsProbe]
  | some w =>
      cases w with
      | arr opts =>
          simpa [alphaScan, oneOfOpts, hoo] using
            alphaScan_foldl compile opts (false, false)
      | str s => simp [oneOfOpts, hoo, acceptsProbe]
      | num n => simp [oneOfOpts, hoo, acceptsProbe]
      | bool b => simp [oneOfOpts, hoo, acceptsProbe]
      | null => simp [oneOfOpts, hoo, acceptsProbe]
      | obj fs => simp [oneOfOpts, hoo, acceptsProbe]

/-- Characterisation of the transparency-derivation stage on an object node:
`alphaRequired` is exactly "some truthy, compilable pattern accepts the
8-digit probe and none accepts the 6-digit probe", the `oneOf` alternatives
are untouched, and `sample` is defaulted from `alphaRequired` only when the
node did not already carry one. -/
theorem alphaStage_spec (compile : String → Option (String → Bool))
    (fs : List (String × JVal)) :
    getF (alphaStage compile (.obj fs)) "alphaRequired" =
      some (.bool (acceptsProbe compile (oneOfOpts (.obj fs)) "#ffffffaa" &&
                   !acceptsProbe compile (oneOfOpts (.obj fs)) "#ffffff")) ∧
    oneOfOpts (alphaStage compile (.obj fs)) = oneOfOpts (.obj fs) ∧
    (hasField (.obj fs) "sample" = false →
      getF (alphaStage compile (.obj fs)) "sample" =
        some (.str (if acceptsProbe compile (oneOfOpts (.obj fs)) "#ffffffaa" &&
                       !acceptsProbe compile (oneOfOpts (.obj fs)) "#ffffff"
                    then "#ffffffaa" else "#ffffff"))) ∧
    (hasField (.obj fs) "sample" = true →
      getF (alphaStage compile (.obj fs)) "sample" = getF (.obj fs) "sample") := by
  simp only [alphaStage]
  rw [alphaScan_eq compile (JVal.obj fs)]
  cases hs : aGet fs "sample" with
  | some sv =>
      simp [hs, hasField, getF, setField, oneOfOpts,
        aGet_aSet_ne, aGet_aSet_self]
  | none =>
      simp [hs, hasField, getF, setField, oneOfOpts,
        aGet_aSet_ne, aGet_aSet_self]

/-! ## Example documents shared by the resolver claims -/

/-- A document with one property whose reference names a category absent
from `$defs` while the definition name is present at `$defs`'s top level. -/
def wrongCatDoc : JVal :=
  .obj [("properties", .obj [("p", .obj [("$ref", .str "#/$nosuchcat/d")])]),
        ("$defs", .obj [("d", .obj [("description", .str "x")])])]

/-- The descriptor that resolving `wrongCatDoc` produces for `p`. -/
def wrongCatNode : JVal :=
  .obj [("description", .str "x"), ("alphaRequired", .bool false),
        ("sample", .str "#ffffff")]

/-- A document whose first property reference resolves and whose second
dangles. -/
def danglingDoc : JVal :=
  .obj [("properties",
          .obj [("a", .obj [("$ref", .str "#/$defs/d")]),
                ("b", .obj [("$ref", .str "#/$defs/missing")])]),
        ("$defs", .obj [("d", .obj [("description", .str "x")])])]

/-- The document state `danglingDoc`'s `properties` entries are left in by
the failing run: the first node fully resolved, the second with its `$ref`
already deleted. -/
def danglingProps : List (String × JVal) :=
  [("a", .obj [("description", .str "x"), ("alphaRequired", .bool false),
               ("sample", .str "#ffffff")]),
   ("b", .obj [])]

/-! ## Claim C2 -/

/-- Modelled from the spec: the lookup the specification describes for a
reference `#/$<category>/<definitionName>` — `category` first, then
`definitionName`, in a two-level `$defs` structure. Present only to compare
the specified lookup with the source's `resolveReference`, which indexes
`$defs` by the definition name alone. -/
def specRefLookup (defs : JVal) (cat defName : String) : Option JVal :=
  match defs with
  | .obj fs =>
      match aGet fs cat with
      | some (.obj g) => aGet g defName
      | _ => none
  | _ => none

/-- C2 counterexample: a reference whose category segment has no entry in
`$defs` (the spec's two-level lookup finds nothing, so the claim demands a
resolution failure and no map), yet schema construction succeeds and returns
a map — the source looks up the definition name alone and ignores the
category. -/
theorem c2_counterexample :
    parseRef "#/$nosuchcat/d" = some ("nosuchcat", "d") ∧
    specRefLookup (.obj [("d", .obj [("description", .str "x")])])
      "nosuchcat" "d" = none ∧
    resolveSchema egCompile wrongCatDoc =
      .ok ([("p", wrongCatNode)], [("p", wrongCatNode)]) := by
  refine ⟨by decide, by decide, by decide⟩

/-- C2 (amended): a `$ref` is parsed against `#/$<category>/<definitionName>`
and resolution fails with an error naming the reference when the string does
not match that shape or the definition-name segment is empty; otherwise the
lookup is `$defs[definitionName]` alone — the category segment plays no part
in it (two references sharing a definition name resolve identically) — and a
falsy or absent entry fails with "No definition for <ref>"; a failing
reference makes the whole construction fail, producing no map. -/
theorem c2_amended :
    (∀ (r : JVal) (defs : Option JVal),
      parseRef (jsStr r) = none →
      resolveReference r defs =
        .error ("Invalid reference/definition pair for " ++ jsonStr r ++ ".")) ∧
    (∀ (r : JVal) (defs : Option JVal) (c : String),
      parseRef (jsStr r) = some (c, "") →
      resolveReference r defs =
        .error ("Invalid reference/definition pair for " ++ jsonStr r ++ ".")) ∧
    (∀ (r : JVal) (defs : Option JVal) (c d : String) (vo : Option JVal),
      parseRef (jsStr r) = some (c, d) → c.isEmpty = false → d.isEmpty = false →
      defsIndex defs d = .ok vo → truthy vo = false →
      resolveReference r defs = .error ("No definition for " ++ jsStr r)) ∧
    (∀ (r : JVal) (defs : Option JVal) (c d : String) (v : JVal),
      parseRef (jsStr r) = some (c, d) → c.isEmpty = false → d.isEmpty = false →
      defsIndex defs d = .ok (some v) → truthyV v = true →
      resolveReference r defs = .ok (c, d, v)) ∧
    (∀ (r r' : JVal) (defs : Option JVal) (c c' d : String),
      parseRef (jsStr r) = some (c, d) → parseRef (jsStr r') = some (c', d) →
      c.isEmpty = false → c'.isEmpty = false → d.isEmpty = false →
      ((resolveReference r defs).isOk = (resolveReference r' defs).isOk ∧
       (resolveReference r defs).toOption.map (fun x => x.2.2) =
         (resolveReference r' defs).toOption.map (fun x => x.2.2))) ∧
    resolveSchema egCompile danglingDoc =
      .error ("No definition for #/$defs/missing", danglingProps) := by
  refine ⟨?_, ?_, ?_, ?_, ?_, by decide⟩
  · intro r defs hparse
    simp [resolveReference, hparse]
  · intro r defs c hparse
    simp [resolveReference, hparse, show "".isEmpty = true from rfl]
  · intro r defs c d vo hparse hc hd hidx htr
    simp [resolveReference, hparse, hc, hd, hidx, htr]
  · intro r defs c d v hparse hc hd hidx htr
    have htv : truthyV v = true := htr
    simp [resolveReference, hparse, hc, hd, hidx, truthy, htv]
  · intro r r' defs c c' d hparse hparse' hc hc' hd
    cases hidx : defsIndex defs d with
    | error e =>
        simp [resolveReference, hparse, hparse', hc, hc', hd, hidx,
          Except.isOk, Except.toBool, Except.toOption]
    | ok vo =>
        cases htr : truthy vo with
        | false =>
            simp [resolveReference, hparse, hparse', hc, hc', hd, hidx, htr,
              Except.isOk, Except.toBool, Except.toOption]
        | true =>
            cases vo with
            | none => simp [truthy] at htr
            | some v =>
                have htv : truthyV v = true := htr
                simp [resolveReference, hparse, hparse', hc, hc', hd, hidx,
                  truthy, htv, Except.isOk, Except.toBool, Except.toOption]

/-- C2 witness: the amended theorem applied to concrete references — the
same definition name under two different category segments resolves to the
same definition. -/
theorem c2_witness :
    resolveReference (.str "#/$a/x")
        (some (.obj [("x", .obj [("q", .str "1")])])) =
      .ok ("a", "x", .obj [("q", .str "1")]) ∧
    (resolveReference (.str "#/$a/x")
        (some (.obj [("x", .obj [("q", .str "1")])]))).isOk =
      (resolveReference (.str "#/$b/x")
        (some (.obj [("x", .obj [("q", .str "1")])]))).isOk :=
  ⟨c2_amended.2.2.2.1 (.str "#/$a/x")
      (some (.obj [("x", .obj [("q", .str "1")])])) "a" "x"
      (.obj [("q", .str "1")]) (by decide) (by decide) (by decide)
      (by decide) (by decide),
   (c2_amended.2.2.2.2.1 (.str "#/$a/x") (.str "#/$b/x")
      (some (.obj [("x", .obj [("q", .str "1")])])) "a" "b" "x"
      (by decide) (by decide) (by decide) (by decide) (by decide)).1⟩

/-! ## Claim C6 -/

/-- The acceptance condition the claim ascribes to the derivation: some
alternative whose `pattern` field compiles accepts the probe — with no
truthiness guard on the alternative or the pattern, so an empty-string
pattern (which compiles and matches everything) counts. -/
def claimPatternAccepts (compile : String → Option (String → Bool))
    (opts : List JVal) (probe : String) : Bool :=
  opts.any fun opt =>
    match getF opt "pattern" with
    | some p =>
        match compile (jsStr p) with
        | some t => t probe
        | none => false
    | none => false

/-- A property whose `oneOf` carries an empty-string pattern (compilable,
accepts everything) alongside an eight-hex-digit pattern. -/
def emptyPatternDoc : JVal :=
  .obj [("properties", .obj [("p", .obj [("oneOf", .arr
    [.obj [("pattern", .str "")],
     .obj [("pattern", .str "^#[0-9a-fA-F]{8}$")]])])])]

/-- The descriptor produced for `p` by resolving `emptyPatternDoc`. -/
def emptyPatternNode : JVal :=
  .obj [("oneOf", .arr [.obj [("pattern", .str "")],
                        .obj [("pattern", .str "^#[0-9a-fA-F]{8}$")]]),
        ("alphaRequired", .bool true), ("sample", .str "#ffffffaa")]

/-- C6 counterexample: the code derives `alphaRequired = true` although a
compilable `oneOf` pattern (the empty one, which `new RegExp` compiles to a
match-everything regex) accepts the probe `"#ffffff"` — the claim's
condition ("no compilable oneOf pattern accepts `#ffffff`") is violated, so
the claimed equivalence demands `alphaRequired = false`. The code skips
falsy (empty) patterns before ever compiling them. -/
theorem c6_counterexample :
    resolveSchema egCompile emptyPatternDoc =
      .ok ([("p", emptyPatternNode)], [("p", emptyPatternNode)]) ∧
    getF emptyPatternNode "alphaRequired" = some (.bool true) ∧
    claimPatternAccepts egCompile (oneOfOpts emptyPatternNode) "#ffffffaa" = true ∧
    claimPatternAccepts egCompile (oneOfOpts emptyPatternNode) "#ffffff" = true := by
  refine ⟨by decide, by decide, by decide, by decide⟩

/-- C6 (amended): for every resolved descriptor that is an object,
`alphaRequired` is true exactly when some truthy alternative with a truthy
(non-empty) `pattern` that compiles accepts `"#ffffffaa"` and no such
alternative accepts `"#ffffff"` (falsy alternatives, falsy patterns and
malformed patterns are all skipped without aborting resolution), and when
the node reaching the derivation carries no `sample` field, `sample` is set
to `"#ffffffaa"` if `alphaRequired` and `"#ffffff"` otherwise; every
descriptor stored by a successful resolution is the image of this
derivation stage. -/
theorem c6_amended :
    (∀ (compile : String → Option (String → Bool)) (fs : List (String × JVal)),
      getF (alphaStage compile (.obj fs)) "alphaRequired" =
        some (.bool (acceptsProbe compile (oneOfOpts (.obj fs)) "#ffffffaa" &&
                     !acceptsProbe compile (oneOfOpts (.obj fs)) "#ffffff")) ∧
      oneOfOpts (alphaStage compile (.obj fs)) = oneOfOpts (.obj fs) ∧
      (hasField (.obj fs) "sample" = false →
        getF (alphaStage compile (.obj fs)) "sample" =
          some (.str (if acceptsProbe compile (oneOfOpts (.obj fs)) "#ffffffaa" &&
                         !acceptsProbe compile (oneOfOpts (.obj fs)) "#ffffff"
                      then "#ffffffaa" else "#ffffff"))) ∧
      (hasField (.obj fs) "sample" = true →
        getF (alphaStage compile (.obj fs)) "sample" = getF (.obj fs) "sample")) ∧
    (∀ (compile : String → Option (String → Bool)) (loaded : JVal)
       (m d : List (String × JVal)) (k : String) (ps : JVal),
      resolveSchema compile loaded = .ok (m, d) → (k, ps) ∈ m →
      ∃ w, ps = alphaStage compile w) := by
  refine ⟨fun compile fs => alphaStage_spec compile fs, ?_⟩
  intro compile loaded m d k ps hok hmem
  obtain ⟨po, entries, cache', hp, he, hres, hm⟩ := resolveSchema_ok hok
  rw [hm] at hmem
  rcases mem_foldl_aSet d [] (k, ps) hmem with h | h
  · simp at h
  · exact resolveEntries_alphaImage entries [] d cache' hres k ps h

/-- C6 witness: the amended theorem applied to a concrete node carrying only
the eight-hex-digit pattern — `alphaRequired` is true and `sample` defaults
to `"#ffffffaa"` — and to the concrete resolver run on that document. -/
theorem c6_witness :
    getF (alphaStage egCompile
        (.obj [("oneOf", .arr [.obj [("pattern", .str "^#[0-9a-fA-F]{8}$")]])]))
        "sample" = some (.str "#ffffffaa") ∧
    ∃ w, (JVal.obj [("oneOf", .arr [.obj [("pattern", .str "^#[0-9a-fA-F]{8}$")]]),
          ("alphaRequired", .bool true), ("sample", .str "#ffffffaa")]) =
        alphaStage egCompile w := by
  constructor
  · have h := (c6_amended.1 egCompile
      [("oneOf", .arr [.obj [("pattern", .str "^#[0-9a-fA-F]{8}$")]])]).2.2.1
      (by decide)
    rw [h]
    decide
  · exact c6_amended.2 egCompile
      (.obj [("properties", .obj [("q", .obj [("oneOf", .arr
        [.obj [("pattern", .str "^#[0-9a-fA-F]{8}$")]])])])])
      [("q", .obj [("oneOf", .arr [.obj [("pattern", .str "^#[0-9a-fA-F]{8}$")]]),
                   ("alphaRequired", .bool true), ("sample", .str "#ffffffaa")])]
      [("q", .obj [("oneOf", .arr [.obj [("pattern", .str "^#[0-9a-fA-F]{8}$")]]),
                   ("alphaRequired", .bool true), ("sample", .str "#ffffffaa")])]
      "q"
      (.obj [("oneOf", .arr [.obj [("pattern", .str "^#[0-9a-fA-F]{8}$")]]),
             ("alphaRequired", .bool true), ("sample", .str "#ffffffaa")])
      (by decide) (by decide)

/-! ## Claim C9 -/

/-- C9: whenever schema resolution succeeds on a document whose `properties`
is an object with pairwise-distinct keys, the key list of the produced map is
exactly the key list of `properties` — nothing added, nothing dropped, and no
outside key enters. -/
theorem c9_key_set (compile : String → Option (String → Bool))
    (loaded : JVal) (ps m d : List (String × JVal))
    (hp : getF loaded "properties" = some (.obj ps))
    (hnd : (ps.map Prod.fst).Nodup)
    (hok : resolveSchema compile loaded = .ok (m, d)) :
    m.map Prod.fst = ps.map Prod.fst := by
  obtain ⟨po, entries, cache', hprop, hent, hres, hm⟩ := resolveSchema_ok hok
  have hln : loaded ≠ .null := by
    intro h
    subst h
    simp [getF] at hp
  rw [prop_eq_ok_getF loaded _ hln, hp] at hprop
  have hpo : po = some (.obj ps) := by
    exact (Except.ok.inj hprop).symm
  subst hpo
  simp only [Option.getD_some, jsEntries, Except.ok.injEq] at hent
  subst hent
  have hkeys : d.map Prod.fst = ps.map Prod.fst :=
    resolveEntries_keys ps [] d cache' hres
  rw [hm, schemaMapOf_eq_self d (hkeys ▸ hnd)]
  exact hkeys

/-- C9 witness: the key-set invariant at the concrete `danglingDoc`-style
document whose resolution succeeds. -/
theorem c9_witness :
    ([("p", wrongCatNode)] : List (String × JVal)).map Prod.fst =
      ([("p", .obj [("$ref", .str "#/$nosuchcat/d")])] :
        List (String × JVal)).map Prod.fst :=
  c9_key_set egCompile wrongCatDoc
    [("p", .obj [("$ref", .str "#/$nosuchcat/d")])]
    [("p", wrongCatNode)] [("p", wrongCatNode)]
    (by decide) (by decide) (by decide)

/-! ## Claim C10 -/

/-- C10: schema resolution transforms the parsed document's property nodes in
place — the embedding returns the final state of the `properties` entries
alongside the map, and (with the parse-guaranteed distinct keys) the map IS
that mutated entries list, descriptor for descriptor; concretely, resolving a
referencing document deletes `$ref` from the node and merges the referenced
definition's fields onto it, leaving the document changed, and a resolution
that fails partway leaves the already-processed nodes (and the failing node's
deleted `$ref`) behind. -/
theorem c10_in_place_mutation :
    (∀ (compile : String → Option (String → Bool)) (loaded : JVal)
       (ps m d : List (String × JVal)),
      getF loaded "properties" = some (.obj ps) →
      (ps.map Prod.fst).Nodup →
      resolveSchema compile loaded = .ok (m, d) → m = d) ∧
    (resolveSchema egCompile wrongCatDoc =
        .ok ([("p", wrongCatNode)], [("p", wrongCatNode)]) ∧
      getF (.obj [("$ref", .str "#/$nosuchcat/d")]) "$ref" =
        some (.str "#/$nosuchcat/d") ∧
      getF wrongCatNode "$ref" = none ∧
      getF wrongCatNode "description" = some (.str "x") ∧
      ([("p", wrongCatNode)] : List (String × JVal)) ≠
        [("p", .obj [("$ref", .str "#/$nosuchcat/d")])]) ∧
    (resolveSchema egCompile danglingDoc =
        .error ("No definition for #/$defs/missing", danglingProps) ∧
      danglingProps ≠
        [("a", .obj [("$ref", .str "#/$defs/d")]),
         ("b", .obj [("$ref", .str "#/$defs/missing")])]) := by
  refine ⟨?_, ⟨by decide, by decide, by decide, by decide, by decide⟩,
    by decide, by decide⟩
  intro compile loaded ps m d hp hnd hok
  obtain ⟨po, entries, cache', hprop, hent, hres, hm⟩ := resolveSchema_ok hok
  have hln : loaded ≠ .null := by
    intro h
    subst h
    simp [getF] at hp
  rw [prop_eq_ok_getF loaded _ hln, hp] at hprop
  have hpo : po = some (.obj ps) := (Except.ok.inj hprop).symm
  subst hpo
  simp only [Option.getD_some, jsEntries, Except.ok.injEq] at hent
  subst hent
  have hkeys : d.map Prod.fst = ps.map Prod.fst :=
    resolveEntries_keys ps [] d cache' hres
  rw [hm, schemaMapOf_eq_self d (hkeys ▸ hnd)]

/-- C10 witness: the universal part applied to the concrete successful run on
`wrongCatDoc`. -/
theorem c10_witness :
    ([("p", wrongCatNode)] : List (String × JVal)) = [("p", wrongCatNode)] :=
  c10_in_place_mutation.1 egCompile wrongCatDoc
    [("p", .obj [("$ref", .str "#/$nosuchcat/d")])]
    [("p", wrongCatNode)] [("p", wrongCatNode)]
    (by decide) (by decide) (by decide)

end Hex
